import Mathlib

/-!
Verification development for the Google SEO Scout query composer
(src/streamlit_app.py).  The definitions below are a shallow embedding of
the pure query-assembly logic of that file: the helper functions
`open_google_search` (lines 15-19) and `is_valid_domain` (lines 22-29),
the numeric-range use case (lines 443-450), and the General Query Builder
(lines 688-762).  Python strings are modelled as Lean `String`
(lists of unicode characters), Python `date` values as a year/month/day
record, and Streamlit `st.warning` calls as values of a `QueryWarning`
type collected by the validation step.
-/

/-- Characters stripped by Python `str.strip()` (ASCII whitespace). -/
def isPySpace (c : Char) : Bool :=
  c == ' ' || c == '\t' || c == '\n' || c == '\r' || c == '\x0b' || c == '\x0c'

/-- Remove trailing characters satisfying `isPySpace` from a character list. -/
def dropEndSpace : List Char → List Char
  | [] => []
  | c :: cs =>
    let r := dropEndSpace cs
    if r.isEmpty && isPySpace c then [] else c :: r

/-- Model of Python `str.strip()` on the character list. -/
def stripL (l : List Char) : List Char :=
  dropEndSpace (l.dropWhile isPySpace)

/-- Model of Python `str.strip()`. -/
def pyStrip (s : String) : String := String.mk (stripL s.data)

/-- Model of Python `' '.join` at the character-list level. -/
def joinSpaceL : List (List Char) → List Char
  | [] => []
  | [p] => p
  | p :: ps => p ++ ' ' :: joinSpaceL ps

/-- Model of Python `' '.join(parts)` (line 752). -/
def joinSpace (ss : List String) : String :=
  String.mk (joinSpaceL (ss.map String.data))

/-- Model of Python `' | '.join(parts)` (line 733). -/
def joinBar : List String → String
  | [] => ""
  | [t] => t
  | t :: ts => t ++ " | " ++ joinBar ts

/-- Model of Python `s.split('|')` at the character-list level. -/
def splitOnBar : List Char → List (List Char)
  | [] => [[]]
  | c :: cs =>
    if c == '|' then [] :: splitOnBar cs
    else
      match splitOnBar cs with
      | [] => [[c]]
      | p :: ps => (c :: p) :: ps

/-- Decimal digits of `n`, least significant first, with explicit fuel so the
definition is structurally recursive (fuel `n` is always enough). -/
def digitsRevF : Nat → Nat → List Nat
  | 0, _ => []
  | _ + 1, 0 => []
  | f + 1, n + 1 => ((n + 1) % 10) :: digitsRevF f ((n + 1) / 10)

/-- Model of Python `str(n)` for a nonnegative integer, as characters. -/
def fmtNatL (n : Nat) : List Char :=
  if n = 0 then ['0'] else ((digitsRevF n n).map Nat.digitChar).reverse

/-- Model of Python `str(n)` for a nonnegative integer. -/
def fmtNat (n : Nat) : String := String.mk (fmtNatL n)

/-- Zero-padded two-digit rendering, as produced by `strftime` `%m` / `%d`. -/
def pad2L (n : Nat) : List Char :=
  if n < 10 then '0' :: fmtNatL n else fmtNatL n

/-- A Python `datetime.date` value. -/
structure PyDate where
  year : Nat
  month : Nat
  day : Nat
deriving DecidableEq

/-- Model of `d.strftime('%Y-%m-%d')` (lines 358, 360, 737, 739): the year in
decimal, then zero-padded month and day.  (glibc `%Y` does not pad years
below 1000; all claims about the shape of this string assume four-digit
years, which is what the date picker produces.) -/
def fmtDate (d : PyDate) : String :=
  String.mk (fmtNatL d.year ++ '-' :: (pad2L d.month ++ '-' :: pad2L d.day))

/-- Alphabetic character, as matched by the regex class `[a-zA-Z]`. -/
def isAlphaCh (c : Char) : Bool :=
  ('a' ≤ c && c ≤ 'z') || ('A' ≤ c && c ≤ 'Z')

/-- Alphanumeric character, as matched by `[a-zA-Z0-9]`. -/
def isAlnumCh (c : Char) : Bool :=
  isAlphaCh c || ('0' ≤ c && c ≤ '9')

/-- Character allowed inside a hostname label, as matched by `[a-zA-Z0-9-]`. -/
def isLabelCh (c : Char) : Bool :=
  isAlnumCh c || c == '-'

/-- A hostname label as matched by the regex piece
`[a-zA-Z0-9](?:[a-zA-Z0-9-]{0,61}[a-zA-Z0-9])?`: either a single
alphanumeric character, or an alphanumeric first and last character with at
most 61 label characters between them. -/
def validLabel : List Char → Bool
  | [] => false
  | [c] => isAlnumCh c
  | c :: cs =>
    isAlnumCh c && decide (cs.dropLast.length ≤ 61) &&
      cs.dropLast.all isLabelCh && isAlnumCh (cs.getLastD 'a')

/-- The final hostname label as matched by `[a-zA-Z]{2,6}`. -/
def validFinal (l : List Char) : Bool :=
  decide (2 ≤ l.length) && decide (l.length ≤ 6) && l.all isAlphaCh

/-- Model of splitting a character list on `'.'`.  The regex labels contain
no dot, so a full match of the domain regex corresponds exactly to a
condition on these dot-separated pieces. -/
def splitOnDot : List Char → List (List Char)
  | [] => [[]]
  | c :: cs =>
    if c == '.' then [] :: splitOnDot cs
    else
      match splitOnDot cs with
      | [] => [[c]]
      | p :: ps => (c :: p) :: ps

/-- Full match of `(?:[a-zA-Z0-9](?:[a-zA-Z0-9-]{0,61}[a-zA-Z0-9])?\.)+[a-zA-Z]{2,6}`
against the whole character list: at least two dot-separated pieces, every
piece before the last a valid label, and the last piece a 2-6 letter
alphabetic label. -/
def coreDomainMatch (l : List Char) : Bool :=
  let ps := splitOnDot l
  decide (2 ≤ ps.length) && ps.dropLast.all validLabel && validFinal (ps.getLastD [])

/-- Model of `is_valid_domain` (src/streamlit_app.py lines 22-29): the empty
string is accepted, and otherwise the string must match the anchored regex
`^(?:[a-zA-Z0-9](?:[a-zA-Z0-9-]{0,61}[a-zA-Z0-9])?\.)+[a-zA-Z]{2,6}$`.
Python's `$` matches at the end of the string or just before a single
trailing newline, so a match of the core pattern followed by one final
`'\n'` is also accepted by `re.match`. -/
def is_valid_domain (s : String) : Bool :=
  if s = "" then true
  else
    coreDomainMatch s.data ||
      (s.data.getLastD ' ' == '\n' && coreDomainMatch s.data.dropLast)

/-- Model of Python `s.startswith(p)` at the character-list level. -/
def startsWithL : List Char → List Char → Bool
  | [], _ => true
  | _ :: _, [] => false
  | p :: ps, c :: cs => p == c && startsWithL ps cs

/-- The scheme test applied to the cache field (line 710):
`cache_url.startswith("http://") or cache_url.startswith("https://")`. -/
def hasHttpStart (s : String) : Bool :=
  startsWithL ("http://".data) s.data || startsWithL ("https://".data) s.data

/-- Warnings surfaced through `st.warning` by the modelled code paths,
following the error taxonomy of the specification. -/
inductive QueryWarning where
  | invalidDomainFormat (field : String)
  | incompleteOperatorPair
  | invalidNumericRange
deriving DecidableEq, Repr

/-- The input record of the General Query Builder (lines 648-698): one field
per form input, in the order the form declares them. -/
structure GQInput where
  keywords : String
  site_domain : String
  intitle_phrase : String
  inurl_phrase : String
  filetype_ext : String
  exact_match_phrase : String
  exclude_term : String
  or_terms : String
  before_date : Option PyDate
  after_date : Option PyDate
  around_term1 : String
  around_term2 : String
  around_x : Nat
  related_site : String
  cache_url : String
deriving DecidableEq

/-- A GQInput with every field empty (dates absent, `around_x` at its
default of 5). -/
def emptyGQ : GQInput :=
  { keywords := "", site_domain := "", intitle_phrase := "", inurl_phrase := ""
    filetype_ext := "", exact_match_phrase := "", exclude_term := "", or_terms := ""
    before_date := none, after_date := none
    around_term1 := "", around_term2 := "", around_x := 5
    related_site := "", cache_url := "" }

/-- The or-term list of line 731:
`[term.strip() for term in or_terms.split('|') if term.strip()]`. -/
def orListOf (o : String) : List String :=
  ((splitOnBar o.data).map (fun t => String.mk (stripL t))).filter (fun t => t ≠ "")

/-- Validation pass of the General Query Builder: the AROUND warning of
lines 688-689 and the domain checks of lines 704-712, which clear an
invalid field and surface a warning.  Returns the cleaned record and the
warnings in source order. -/
def validateGeneral (r : GQInput) : GQInput × List QueryWarning :=
  let aroundBad : Bool :=
    (r.around_term1 != "" && r.around_term2 == "") ||
      (r.around_term1 == "" && r.around_term2 != "")
  let siteBad : Bool := r.site_domain != "" && !(is_valid_domain r.site_domain)
  let relatedBad : Bool := r.related_site != "" && !(is_valid_domain r.related_site)
  let cacheBad : Bool :=
    r.cache_url != "" && !(hasHttpStart r.cache_url) && !(is_valid_domain r.cache_url)
  ({ r with
      site_domain := if siteBad then "" else r.site_domain
      related_site := if relatedBad then "" else r.related_site
      cache_url := if cacheBad then "" else r.cache_url },
    (if aroundBad then [QueryWarning.incompleteOperatorPair] else []) ++
      ((if siteBad then [QueryWarning.invalidDomainFormat "site_domain"] else []) ++
        ((if relatedBad then [QueryWarning.invalidDomainFormat "related_site"] else []) ++
          (if cacheBad then [QueryWarning.invalidDomainFormat "cache_url"] else []))))

/-- One conditional append step of the builder: `if cond: parts.append(tok)`. -/
def appendIf (c : Prop) [Decidable c] (t : String) (parts : List String) : List String :=
  if c then parts ++ [t] else parts

/-- The or-terms step of lines 729-735: split on `'|'`, strip, drop blanks;
group with parentheses when more than one term remains, emit the single
term bare when exactly one remains, emit nothing when none remain. -/
def appendOrTerms (o : String) (parts : List String) : List String :=
  if o ≠ "" then
    if (orListOf o).length > 1 then parts ++ ["(" ++ joinBar (orListOf o) ++ ")"]
    else if orListOf o ≠ [] then parts ++ [(orListOf o).headD ""]
    else parts
  else parts

/-- The date steps of lines 736-739: append `op + strftime('%Y-%m-%d')` when
the date is present. -/
def appendDate (op : String) (d : Option PyDate) (parts : List String) : List String :=
  match d with
  | some dt => parts ++ [op ++ fmtDate dt]
  | none => parts

/-- The token list built by the General Query Builder (lines 701-749), one
pipeline step per source `if` in source order. -/
def generatedQueryParts (r : GQInput) : List String :=
  ([] : List String)
  |> appendIf (r.keywords ≠ "") r.keywords
  |> appendIf (r.site_domain ≠ "") ("site:" ++ r.site_domain)
  |> appendIf (r.intitle_phrase ≠ "") ("intitle:\"" ++ r.intitle_phrase ++ "\"")
  |> appendIf (r.inurl_phrase ≠ "") ("inurl:\"" ++ r.inurl_phrase ++ "\"")
  |> appendIf (r.filetype_ext ≠ "") ("filetype:" ++ r.filetype_ext)
  |> appendIf (r.exact_match_phrase ≠ "") ("\"" ++ r.exact_match_phrase ++ "\"")
  |> appendIf (r.exclude_term ≠ "") ("-" ++ r.exclude_term)
  |> appendOrTerms r.or_terms
  |> appendDate "before:" r.before_date
  |> appendDate "after:" r.after_date
  |> appendIf (r.related_site ≠ "") ("related:" ++ r.related_site)
  |> appendIf (r.around_term1 ≠ "" ∧ r.around_term2 ≠ "")
      ("\"" ++ r.around_term1 ++ "\" AROUND(" ++ fmtNat r.around_x ++ ") \"" ++
        r.around_term2 ++ "\"")
  |> appendIf (r.cache_url ≠ "") ("cache:" ++ r.cache_url)

/-- Line 752: `general_query = " ".join(generated_query_parts).strip()`. -/
def general_query (r : GQInput) : String :=
  pyStrip (joinSpace (generatedQueryParts r))

/-- The full General Query Builder pipeline: validation (which clears
invalid domain fields and collects warnings) followed by composition. -/
def compose_general (r : GQInput) : String × List QueryWarning :=
  let v := validateGeneral r
  (general_query v.1, v.2)

/-- The keywords token (lines 715-716). -/
def kwTok (r : GQInput) : Option String :=
  if r.keywords ≠ "" then some r.keywords else none

/-- The site token (lines 717-718). -/
def siteTok (r : GQInput) : Option String :=
  if r.site_domain ≠ "" then some ("site:" ++ r.site_domain) else none

/-- The intitle token (lines 719-720). -/
def intitleTok (r : GQInput) : Option String :=
  if r.intitle_phrase ≠ "" then some ("intitle:\"" ++ r.intitle_phrase ++ "\"") else none

/-- The inurl token (lines 721-722). -/
def inurlTok (r : GQInput) : Option String :=
  if r.inurl_phrase ≠ "" then some ("inurl:\"" ++ r.inurl_phrase ++ "\"") else none

/-- The filetype token (lines 723-724). -/
def filetypeTok (r : GQInput) : Option String :=
  if r.filetype_ext ≠ "" then some ("filetype:" ++ r.filetype_ext) else none

/-- The exact-match token (lines 725-726). -/
def exactTok (r : GQInput) : Option String :=
  if r.exact_match_phrase ≠ "" then some ("\"" ++ r.exact_match_phrase ++ "\"") else none

/-- The exclude token (lines 727-728). -/
def excludeTok (r : GQInput) : Option String :=
  if r.exclude_term ≠ "" then some ("-" ++ r.exclude_term) else none

/-- The or-terms token (lines 729-735) as an optional token. -/
def orTok (o : String) : Option String :=
  match orListOf o with
  | [] => none
  | [t] => some t
  | t :: ts => some ("(" ++ joinBar (t :: ts) ++ ")")

/-- The before-date token (lines 736-737). -/
def beforeTok (r : GQInput) : Option String :=
  r.before_date.map (fun dt => "before:" ++ fmtDate dt)

/-- The after-date token (lines 738-739). -/
def afterTok (r : GQInput) : Option String :=
  r.after_date.map (fun dt => "after:" ++ fmtDate dt)

/-- The related token (lines 740-741). -/
def relatedTok (r : GQInput) : Option String :=
  if r.related_site ≠ "" then some ("related:" ++ r.related_site) else none

/-- The AROUND token (lines 744-745), emitted only when both terms are
non-empty. -/
def aroundTok (r : GQInput) : Option String :=
  if r.around_term1 ≠ "" ∧ r.around_term2 ≠ "" then
    some ("\"" ++ r.around_term1 ++ "\" AROUND(" ++ fmtNat r.around_x ++ ") \"" ++
      r.around_term2 ++ "\"")
  else none

/-- The cache token (lines 748-749). -/
def cacheTok (r : GQInput) : Option String :=
  if r.cache_url ≠ "" then some ("cache:" ++ r.cache_url) else none

/-- The optional tokens of the builder listed in the canonical order of the
specification: keywords, site, intitle, inurl, filetype, exact-match,
exclude, or-terms, before, after, related, around, cache. -/
def canonicalTokens (r : GQInput) : List (Option String) :=
  [kwTok r, siteTok r, intitleTok r, inurlTok r, filetypeTok r, exactTok r,
    excludeTok r, orTok r.or_terms, beforeTok r, afterTok r, relatedTok r,
    aroundTok r, cacheTok r]

/-- The numeric-range use case (lines 443-450): reject with a warning when
`min >= max`, otherwise build `{currency}{min}..{currency}{max}` and
compose it with the keywords. -/
def numeric_range_query (kw cur : String) (minV maxV : Nat) :
    Option String × List QueryWarning :=
  if minV ≥ maxV then (none, [QueryWarning.invalidNumericRange])
  else
    (some (pyStrip (kw ++ " " ++
      (cur ++ fmtNat minV ++ ".." ++ cur ++ fmtNat maxV))), [])

/-- Record with only the first around term set, for the C3 witness. -/
def rW3 : GQInput := { emptyGQ with around_term1 := "tesla" }

/-- Record with all six operator fields set, for the C6 witness. -/
def rW6 : GQInput :=
  { emptyGQ with
    site_domain := "example.com"
    intitle_phrase := "write for us"
    inurl_phrase := "guest-post"
    filetype_ext := "pdf"
    related_site := "nytimes.com"
    cache_url := "example.com" }

/-- Record with a cache value that has an `http://` scheme but fails the
hostname pattern, for the C5 counterexample. -/
def rC5 : GQInput := { emptyGQ with cache_url := "http://not a domain!!" }

/-- Record with an invalid site and a scheme-carrying cache value, for the
C5 witness. -/
def rW5 : GQInput :=
  { emptyGQ with site_domain := "not a domain!!", cache_url := "http://x" }

/-- Decimal digit character. -/
def isDigitCh (c : Char) : Bool := '0' ≤ c && c ≤ '9'

/-- Shape check for `YYYY-MM-DD`: four digits, a hyphen, two digits, a
hyphen, two digits. -/
def dateShape : List Char → Bool
  | [y1, y2, y3, y4, s1, m1, m2, s2, d1, d2] =>
    isDigitCh y1 && isDigitCh y2 && isDigitCh y3 && isDigitCh y4 && s1 == '-' &&
      isDigitCh m1 && isDigitCh m2 && s2 == '-' && isDigitCh d1 && isDigitCh d2
  | _ => false

/-- Record with both dates set, for the C7 witness. -/
def rW7 : GQInput :=
  { emptyGQ with before_date := some ⟨2024, 5, 8⟩, after_date := some ⟨2010, 5, 8⟩ }

/-- Two consecutive space characters somewhere in the list. -/
def hasDoubleSpace : List Char → Bool
  | a :: b :: t => (a == ' ' && b == ' ') || hasDoubleSpace (b :: t)
  | _ => false

/-- A token that is non-empty, contains no two consecutive spaces, and
neither begins nor ends with a space character. -/
def tokenClean (l : List Char) : Bool :=
  !l.isEmpty && !(hasDoubleSpace l) && !(l.head? == some ' ') &&
    !(l.getLast? == some ' ')

/-- The string neither begins nor ends with a stripped whitespace
character. -/
def noEdgeSpace (s : String) : Bool :=
  (match s.data.head? with | some c => !isPySpace c | none => true) &&
    (match s.data.getLast? with | some c => !isPySpace c | none => true)

/-- Record whose keywords contain an internal double space, for the C8
counterexample. -/
def rC8 : GQInput := { emptyGQ with keywords := "hello  world" }

/-- Record with clean tokens, for the C8 witness. -/
def rW8 : GQInput := { emptyGQ with keywords := "seo tips", site_domain := "example.com" }

/-- Bytes never escaped by `urllib.parse.quote_plus`: ASCII letters,
digits, and `_ . - ~` (Python's always-safe set). -/
def isUnreservedByte (b : Nat) : Bool :=
  (48 ≤ b && b ≤ 57) || (65 ≤ b && b ≤ 90) || (97 ≤ b && b ≤ 122) ||
    b == 45 || b == 46 || b == 95 || b == 126

/-- Uppercase hexadecimal digit character code for a value below 16. -/
def hexDigitCode (n : Nat) : Nat := if n < 10 then 48 + n else 55 + n

/-- quote_plus on one byte: unreserved bytes pass through, the space byte
becomes `+` (43), and every other byte becomes `%` (37) followed by two
uppercase hexadecimal digit codes. -/
def quotePlusByte (b : Nat) : List Nat :=
  if isUnreservedByte b then [b]
  else if b == 32 then [43]
  else [37, hexDigitCode (b / 16), hexDigitCode (b % 16)]

/-- Model of `urllib.parse.quote_plus` (line 17) on a UTF-8 byte sequence,
as the codes of the characters of the encoded string. -/
def quotePlusBytes (bs : List Nat) : List Nat := bs.flatMap quotePlusByte

/-- Hexadecimal value of a hex-digit character code, if it is one. -/
def hexVal (c : Nat) : Option Nat :=
  if 48 ≤ c && c ≤ 57 then some (c - 48)
  else if 65 ≤ c && c ≤ 70 then some (c - 55)
  else if 97 ≤ c && c ≤ 102 then some (c - 87)
  else none

/-- Modelled from the spec: standard application/x-www-form-urlencoded
percent-decoding on character codes (the repository contains only the
encoding direction).  `+` decodes to the space byte, `%` followed by two
hexadecimal digits to the byte they denote, and any other code stands for
itself. -/
def percentDecodeBytes : List Nat → Option (List Nat)
  | [] => some []
  | b :: rest =>
    if b == 43 then (percentDecodeBytes rest).map (fun t => 32 :: t)
    else if b == 37 then
      match rest with
      | h1 :: h2 :: rest2 =>
        match hexVal h1, hexVal h2 with
        | some v1, some v2 =>
          (percentDecodeBytes rest2).map (fun t => (16 * v1 + v2) :: t)
        | _, _ => none
      | _ => none
    else (percentDecodeBytes rest).map (fun t => b :: t)

/-- Standard UTF-8 encoding of one code point, as used by Python and by
`urllib.parse.quote_plus` before escaping. -/
def utf8EncodeCp (c : Nat) : List Nat :=
  if c < 128 then [c]
  else if c < 2048 then [192 + c / 64, 128 + c % 64]
  else if c < 65536 then [224 + c / 4096, 128 + (c / 64) % 64, 128 + c % 64]
  else [240 + c / 262144, 128 + (c / 4096) % 64, 128 + (c / 64) % 64, 128 + c % 64]

/-- The UTF-8 bytes of a string. -/
def utf8Bytes (s : String) : List Nat :=
  s.data.flatMap (fun ch => utf8EncodeCp ch.toNat)

/-- A UTF-8 continuation byte. -/
def isContByte (b : Nat) : Bool := 128 ≤ b && b < 192

mutual

/-- Standard UTF-8 decoding back to code points: the lead byte selects the
sequence length, continuation bytes carry six payload bits each. -/
def utf8DecodeCp : List Nat → Option (List Nat)
  | [] => some []
  | b :: rest =>
    if b < 128 then (utf8DecodeCp rest).map (fun t => b :: t)
    else if b < 192 then none
    else if b < 224 then utf8DecodeTwo b rest
    else if b < 240 then utf8DecodeThree b rest
    else if b < 248 then utf8DecodeFour b rest
    else none

/-- Continuation of a two-byte UTF-8 sequence. -/
def utf8DecodeTwo (b : Nat) : List Nat → Option (List Nat)
  | b1 :: rest1 =>
    if isContByte b1 then
      (utf8DecodeCp rest1).map (fun t => ((b - 192) * 64 + (b1 - 128)) :: t)
    else none
  | [] => none

/-- Continuation of a three-byte UTF-8 sequence. -/
def utf8DecodeThree (b : Nat) : List Nat → Option (List Nat)
  | b1 :: b2 :: rest2 =>
    if isContByte b1 && isContByte b2 then
      (utf8DecodeCp rest2).map
        (fun t => ((b - 224) * 4096 + (b1 - 128) * 64 + (b2 - 128)) :: t)
    else none
  | _ => none

/-- Continuation of a four-byte UTF-8 sequence. -/
def utf8DecodeFour (b : Nat) : List Nat → Option (List Nat)
  | b1 :: b2 :: b3 :: rest3 =>
    if isContByte b1 && isContByte b2 && isContByte b3 then
      (utf8DecodeCp rest3).map
        (fun t => ((b - 240) * 262144 + (b1 - 128) * 4096 +
          (b2 - 128) * 64 + (b3 - 128)) :: t)
    else none
  | _ => none

end

/-- The quote_plus-encoded query as a string (every encoded code is
printable ASCII). -/
def quotePlusStr (q : String) : String :=
  String.mk ((quotePlusBytes (utf8Bytes q)).map Char.ofNat)

/-- Model of the URL built by `open_google_search` (lines 15-19). -/
def google_search_url (q : String) : String :=
  "https://www.google.com/search?q=" ++ quotePlusStr q

/-- Filtering the identity over a cons of options prepends the option's
list. -/
theorem filterMap_id_cons (a : Option String) (l : List (Option String)) :
    (a :: l).filterMap id = a.toList ++ l.filterMap id := by
  cases a <;> simp

/-- A conditional append step contributes exactly its optional token. -/
theorem appendIf_eq (c : Prop) [Decidable c] (t : String) (parts : List String) :
    appendIf c t parts = parts ++ (if c then some t else none).toList := by
  by_cases h : c <;> simp [appendIf, h]

/-- The or-terms step contributes exactly the optional or-token. -/
theorem appendOr_eq (o : String) (parts : List String) :
    appendOrTerms o parts = parts ++ (orTok o).toList := by
  unfold appendOrTerms orTok
  by_cases ho : o = ""
  · subst ho
    have h0 : orListOf "" = [] := rfl
    simp [h0]
  · rcases hL : orListOf o with _ | ⟨t, _ | ⟨u, ts⟩⟩ <;> simp [ho, hL]

/-- The optional-date step contributes exactly the optional date token. -/
theorem appendDate_eq (op : String) (d : Option PyDate) (parts : List String) :
    appendDate op d parts = parts ++ (d.map (fun dt => op ++ fmtDate dt)).toList := by
  cases d <;> simp [appendDate]

/-- The sequential builder of lines 715-749 produces exactly the canonical
token list with absent tokens dropped. -/
theorem gqp_eq_canonical (r : GQInput) :
    generatedQueryParts r = (canonicalTokens r).filterMap id := by
  simp only [generatedQueryParts, appendIf_eq, appendOr_eq, appendDate_eq,
    canonicalTokens, kwTok, siteTok, intitleTok, inurlTok, filetypeTok, exactTok,
    excludeTok, beforeTok, afterTok, relatedTok, aroundTok, cacheTok,
    filterMap_id_cons, List.filterMap_nil]
  simp [List.append_assoc]

/-- C1: in the General Query Builder composition, for every input record the
tokens of the produced query string appear in the canonical order keywords,
site, intitle, inurl, filetype, exact-match, exclude, or-terms, before,
after, related, around, cache, regardless of which fields are present. -/
theorem c1_token_order (r : GQInput) :
    generatedQueryParts r =
      ([kwTok r, siteTok r, intitleTok r, inurlTok r, filetypeTok r, exactTok r,
        excludeTok r, orTok r.or_terms, beforeTok r, afterTok r, relatedTok r,
        aroundTok r, cacheTok r]).filterMap id ∧
    general_query r =
      pyStrip (joinSpace ((canonicalTokens r).filterMap id)) := by
  refine ⟨gqp_eq_canonical r, ?_⟩
  rw [general_query, gqp_eq_canonical, canonicalTokens]

/-- C2: for every value of the or-terms field, splitting on the bar and
stripping whitespace determines the emitted token: more than one non-empty
term gives the parenthesised bar-joined group, exactly one gives that term
bare, and zero gives no token; the conditional-append step of the builder
contributes exactly this optional token. -/
theorem c2_or_terms (o : String) :
    (∀ parts, appendOrTerms o parts = parts ++ (orTok o).toList) ∧
    ((orListOf o).length = 0 → orTok o = none) ∧
    ((orListOf o).length = 1 → orTok o = some ((orListOf o).headD "")) ∧
    (1 < (orListOf o).length → orTok o = some ("(" ++ joinBar (orListOf o) ++ ")")) := by
  refine ⟨fun parts => appendOr_eq o parts, ?_, ?_, ?_⟩ <;>
    rcases hL : orListOf o with _ | ⟨t, _ | ⟨u, ts⟩⟩ <;> simp [orTok, hL]

/-- Witness for C2 at the specification's examples. -/
theorem c2_witness :
    orTok "seo | marketing" = some "(seo | marketing)" ∧
    orTok "seo" = some "seo" ∧ orTok "" = none := by
  refine ⟨?_, ?_, ?_⟩
  · rw [(c2_or_terms "seo | marketing").2.2.2 (by decide)]; rfl
  · rw [(c2_or_terms "seo").2.2.1 (by decide)]; rfl
  · exact (c2_or_terms "").2.1 (by decide)

/-- C3: the AROUND token is emitted exactly when both around terms are
non-empty; when exactly one of the two is non-empty, the validation pass
surfaces an IncompleteOperatorPair warning and no AROUND token is emitted
(composition still proceeds; nothing is fatal). -/
theorem c3_around_pair (r : GQInput) :
    ((aroundTok r).isSome ↔ (r.around_term1 ≠ "" ∧ r.around_term2 ≠ "")) ∧
    ((r.around_term1 ≠ "" ∧ r.around_term2 = "") ∨
        (r.around_term1 = "" ∧ r.around_term2 ≠ "") →
      aroundTok r = none ∧
        QueryWarning.incompleteOperatorPair ∈ (validateGeneral r).2) := by
  constructor
  · unfold aroundTok
    by_cases h : r.around_term1 ≠ "" ∧ r.around_term2 ≠ "" <;> simp [h]
  · intro h
    constructor
    · unfold aroundTok
      rcases h with ⟨h1, h2⟩ | ⟨h1, h2⟩ <;> simp [h1, h2]
    · unfold validateGeneral
      rcases h with ⟨h1, h2⟩ | ⟨h1, h2⟩ <;>
        simp [h1, h2, bne_iff_ne, List.mem_append]

/-- Witness for C3: one around term alone yields a warning and no token. -/
theorem c3_witness :
    aroundTok rW3 = none ∧
      QueryWarning.incompleteOperatorPair ∈ (validateGeneral rW3).2 :=
  (c3_around_pair rW3).2 (Or.inl ⟨by decide, by decide⟩)

/-- C4: the numeric-range operation warns and emits nothing when
`min >= max`, and otherwise emits the keywords joined with the
`{currency}{min}..{currency}{max}` token. -/
theorem c4_numeric_range (kw cur : String) (minV maxV : Nat) :
    (minV ≥ maxV →
      numeric_range_query kw cur minV maxV =
        (none, [QueryWarning.invalidNumericRange])) ∧
    (minV < maxV →
      numeric_range_query kw cur minV maxV =
        (some (pyStrip (kw ++ " " ++
          (cur ++ fmtNat minV ++ ".." ++ cur ++ fmtNat maxV))), [])) := by
  constructor
  · intro h; simp [numeric_range_query, h]
  · intro h; rw [numeric_range_query, if_neg (by omega)]

/-- Witness for C4 at the specification's example `min=100, max=10` and at
a valid range. -/
theorem c4_witness :
    numeric_range_query "best laptops" "$" 100 10 =
      (none, [QueryWarning.invalidNumericRange]) ∧
    numeric_range_query "best laptops" "$" 10 100 =
      (some "best laptops $10..$100", []) := by
  constructor
  · exact (c4_numeric_range "best laptops" "$" 100 10).1 (by decide)
  · rw [(c4_numeric_range "best laptops" "$" 10 100).2 (by decide)]; rfl

/-- C6: every non-empty site, filetype, related and cache value contributes
a bare `operator:value` token to the builder's parts, while non-empty
intitle and inurl values contribute `operator:"value"` with the value in
double quotes. -/
theorem c6_operator_tokens (r : GQInput) :
    (r.site_domain ≠ "" → "site:" ++ r.site_domain ∈ generatedQueryParts r) ∧
    (r.filetype_ext ≠ "" → "filetype:" ++ r.filetype_ext ∈ generatedQueryParts r) ∧
    (r.related_site ≠ "" → "related:" ++ r.related_site ∈ generatedQueryParts r) ∧
    (r.cache_url ≠ "" → "cache:" ++ r.cache_url ∈ generatedQueryParts r) ∧
    (r.intitle_phrase ≠ "" →
      "intitle:\"" ++ r.intitle_phrase ++ "\"" ∈ generatedQueryParts r) ∧
    (r.inurl_phrase ≠ "" →
      "inurl:\"" ++ r.inurl_phrase ++ "\"" ∈ generatedQueryParts r) := by
  refine ⟨?_, ?_, ?_, ?_, ?_, ?_⟩ <;> intro h <;> rw [gqp_eq_canonical] <;>
    refine List.mem_filterMap.mpr ⟨some _, ?_, rfl⟩ <;>
    simp [canonicalTokens, siteTok, filetypeTok, relatedTok, cacheTok,
      intitleTok, inurlTok, h]

/-- Witness for C6: the six operator tokens of a concrete record. -/
theorem c6_witness :
    "site:example.com" ∈ generatedQueryParts rW6 ∧
    "filetype:pdf" ∈ generatedQueryParts rW6 ∧
    "related:nytimes.com" ∈ generatedQueryParts rW6 ∧
    "cache:example.com" ∈ generatedQueryParts rW6 ∧
    "intitle:\"write for us\"" ∈ generatedQueryParts rW6 ∧
    "inurl:\"guest-post\"" ∈ generatedQueryParts rW6 := by
  have h := c6_operator_tokens rW6
  exact ⟨h.1 (by decide), h.2.1 (by decide), h.2.2.1 (by decide),
    h.2.2.2.1 (by decide), h.2.2.2.2.1 (by decide), h.2.2.2.2.2 (by decide)⟩

/-- Counterexample to C5 as stated: this cache value fails the hostname
pattern, yet it is not excluded from the query and no warning is reported,
because the cache check also accepts any value with an `http://` or
`https://` scheme (line 710). -/
theorem c5_counterexample :
    is_valid_domain "http://not a domain!!" = false ∧
    (validateGeneral rC5).2 = [] ∧
    (compose_general rC5).1 = "cache:http://not a domain!!" := by
  refine ⟨by decide, by decide, by rfl⟩

/-- C5 (amended): the site and related fields are validated against the
hostname pattern, and the cache field against the same pattern unless it
carries an `http://` or `https://` scheme; a non-empty value failing its
check is cleared from the record (so it contributes no token) and an
InvalidDomainFormat warning is reported rather than a fatal error; a value
passing its check is kept unchanged, and the empty value is always valid. -/
theorem c5_domain_validation (r : GQInput) :
    (is_valid_domain "" = true) ∧
    (r.site_domain ≠ "" → is_valid_domain r.site_domain = false →
      (validateGeneral r).1.site_domain = "" ∧
        siteTok (validateGeneral r).1 = none ∧
        QueryWarning.invalidDomainFormat "site_domain" ∈ (validateGeneral r).2) ∧
    (is_valid_domain r.site_domain = true →
      (validateGeneral r).1.site_domain = r.site_domain) ∧
    (r.related_site ≠ "" → is_valid_domain r.related_site = false →
      (validateGeneral r).1.related_site = "" ∧
        relatedTok (validateGeneral r).1 = none ∧
        QueryWarning.invalidDomainFormat "related_site" ∈ (validateGeneral r).2) ∧
    (is_valid_domain r.related_site = true →
      (validateGeneral r).1.related_site = r.related_site) ∧
    (r.cache_url ≠ "" → hasHttpStart r.cache_url = false →
        is_valid_domain r.cache_url = false →
      (validateGeneral r).1.cache_url = "" ∧
        cacheTok (validateGeneral r).1 = none ∧
        QueryWarning.invalidDomainFormat "cache_url" ∈ (validateGeneral r).2) ∧
    (hasHttpStart r.cache_url = true →
      (validateGeneral r).1.cache_url = r.cache_url) := by
  refine ⟨by decide, ?_, ?_, ?_, ?_, ?_, ?_⟩
  · intro h1 h2
    have hb : (r.site_domain != "" && !(is_valid_domain r.site_domain)) = true := by
      simp [bne_iff_ne, h1, h2]
    refine ⟨?_, ?_, ?_⟩ <;>
      simp [validateGeneral, siteTok, hb, List.mem_append]
  · intro h
    have hb : (r.site_domain != "" && !(is_valid_domain r.site_domain)) = false := by
      simp [h]
    simp [validateGeneral, hb]
  · intro h1 h2
    have hb : (r.related_site != "" && !(is_valid_domain r.related_site)) = true := by
      simp [bne_iff_ne, h1, h2]
    refine ⟨?_, ?_, ?_⟩ <;>
      simp [validateGeneral, relatedTok, hb, List.mem_append]
  · intro h
    have hb : (r.related_site != "" && !(is_valid_domain r.related_site)) = false := by
      simp [h]
    simp [validateGeneral, hb]
  · intro h1 h2 h3
    have hb : (r.cache_url != "" && !(hasHttpStart r.cache_url) &&
        !(is_valid_domain r.cache_url)) = true := by
      simp [bne_iff_ne, h1, h2, h3]
    refine ⟨?_, ?_, ?_⟩ <;>
      simp [validateGeneral, cacheTok, hb, List.mem_append]
  · intro h
    have hb : (r.cache_url != "" && !(hasHttpStart r.cache_url) &&
        !(is_valid_domain r.cache_url)) = false := by
      simp [h]
    simp [validateGeneral, hb]

/-- Witness for C5 (amended): the invalid site is cleared with a warning
while the scheme-carrying cache value is kept. -/
theorem c5_witness :
    (validateGeneral rW5).1.site_domain = "" ∧
    QueryWarning.invalidDomainFormat "site_domain" ∈ (validateGeneral rW5).2 ∧
    (validateGeneral rW5).1.cache_url = "http://x" := by
  have h := c5_domain_validation rW5
  have hs := h.2.1 (by decide) (by decide)
  exact ⟨hs.1, hs.2.2, h.2.2.2.2.2.2 (by decide)⟩

/-- Counterexample to C10 as stated: the Python regex anchor `$` also
matches just before a single trailing newline, so `re.match` accepts
`"a.com\n"` even though its last dot-separated label `"com\n"` contains a
non-letter. -/
theorem c10_counterexample :
    is_valid_domain "a.com\n" = true ∧
    ((splitOnDot ("a.com\n".data)).getLastD []).all isAlphaCh = false := by
  refine ⟨by decide, by decide⟩

/-- C10 (amended): for every non-empty input whose final character is not a
newline, if the last dot-separated label is not a run of 2 to 6 letters
then `is_valid_domain` rejects the input; in particular real domains such
as `example.software` and `shop.technology` are rejected.  (An input whose
final character is a newline is validated as if that newline were absent.) -/
theorem c10_final_label (s : String) (hne : s ≠ "")
    (hnl : s.data.getLastD ' ' ≠ '\n')
    (hbad : validFinal ((splitOnDot s.data).getLastD []) = false) :
    is_valid_domain s = false ∧
    is_valid_domain "example.software" = false ∧
    is_valid_domain "shop.technology" = false := by
  refine ⟨?_, by decide, by decide⟩
  rw [is_valid_domain, if_neg hne, Bool.or_eq_false_iff]
  constructor
  · show (_ && validFinal ((splitOnDot s.data).getLastD [])) = false
    rw [hbad, Bool.and_false]
  · rw [beq_eq_false_iff_ne.mpr hnl, Bool.false_and]

/-- Witness for C10 (amended) at an input whose final label has one letter. -/
theorem c10_witness :
    is_valid_domain "site.c" = false ∧
    is_valid_domain "example.software" = false ∧
    is_valid_domain "shop.technology" = false :=
  c10_final_label "site.c" (by decide) (by decide) (by decide)

/-- The fuelled digit list agrees with Mathlib's `Nat.digits` in base 10
whenever the fuel is at least the number. -/
theorem digitsRevF_eq (f n : Nat) (h : n ≤ f) : digitsRevF f n = Nat.digits 10 n := by
  induction f generalizing n with
  | zero =>
    have hn : n = 0 := by omega
    subst hn
    simp [digitsRevF]
  | succ f ih =>
    cases n with
    | zero => simp [digitsRevF]
    | succ m =>
      show ((m + 1) % 10) :: digitsRevF f ((m + 1) / 10) = _
      rw [Nat.digits_def' (by norm_num : (1 : ℕ) < 10) (Nat.succ_pos m)]
      rw [ih ((m + 1) / 10) (by omega)]

/-- The digit characters 0-9 pass the digit-character check. -/
theorem digitChar_digit (d : Nat) (h : d < 10) : isDigitCh (Nat.digitChar d) = true := by
  interval_cases d <;> rfl

/-- Every character of a rendered natural number is a decimal digit. -/
theorem fmtNatL_all_digits (n : Nat) : (fmtNatL n).all isDigitCh = true := by
  rw [fmtNatL]
  split
  · rfl
  · rename_i h
    rw [List.all_eq_true]
    intro x hx
    rw [List.mem_reverse, List.mem_map] at hx
    obtain ⟨d, hd, rfl⟩ := hx
    rw [digitsRevF_eq n n le_rfl] at hd
    exact digitChar_digit d (Nat.digits_lt_base (by norm_num) hd)

/-- The rendered length of a positive number is its digit count. -/
theorem fmtNatL_length (n : Nat) (h : n ≠ 0) :
    (fmtNatL n).length = Nat.log 10 n + 1 := by
  rw [fmtNatL, if_neg h, List.length_reverse, List.length_map,
    digitsRevF_eq n n le_rfl, Nat.digits_len 10 n (by norm_num) h]

/-- Numbers from 1 to 9 have a one-digit base-10 logarithm of zero. -/
theorem log10_one_digit (n : Nat) (h1 : 1 ≤ n) (h2 : n ≤ 9) : Nat.log 10 n = 0 :=
  Nat.log_eq_of_pow_le_of_lt_pow (by rw [pow_zero]; omega) (by rw [pow_one]; omega)

/-- Numbers from 10 to 99 have a base-10 logarithm of one. -/
theorem log10_two_digit (n : Nat) (h1 : 10 ≤ n) (h2 : n ≤ 99) : Nat.log 10 n = 1 :=
  Nat.log_eq_of_pow_le_of_lt_pow (by rw [pow_one]; omega)
    (by norm_num; omega)

/-- Numbers from 1000 to 9999 have a base-10 logarithm of three. -/
theorem log10_four_digit (n : Nat) (h1 : 1000 ≤ n) (h2 : n ≤ 9999) : Nat.log 10 n = 3 :=
  Nat.log_eq_of_pow_le_of_lt_pow (by norm_num; omega) (by norm_num; omega)

/-- The zero-padded two-digit rendering of 1-99 is two digit characters. -/
theorem pad2L_spec (n : Nat) (h1 : 1 ≤ n) (h2 : n ≤ 99) :
    (pad2L n).length = 2 ∧ (pad2L n).all isDigitCh = true := by
  rw [pad2L]
  split
  · rename_i h
    refine ⟨?_, ?_⟩
    · simp [fmtNatL_length n (by omega), log10_one_digit n h1 (by omega)]
    · rw [List.all_cons, fmtNatL_all_digits n]
      rfl
  · rename_i h
    refine ⟨?_, fmtNatL_all_digits n⟩
    rw [fmtNatL_length n (by omega), log10_two_digit n (by omega) h2]

/-- Assembling four digits, a hyphen, two digits, a hyphen and two digits
passes the `YYYY-MM-DD` shape check. -/
theorem dateShape_build (ys ms ds : List Char)
    (hy : ys.length = 4) (hya : ys.all isDigitCh = true)
    (hm : ms.length = 2) (hma : ms.all isDigitCh = true)
    (hd : ds.length = 2) (hda : ds.all isDigitCh = true) :
    dateShape (ys ++ '-' :: (ms ++ '-' :: ds)) = true := by
  rcases ys with _ | ⟨a, _ | ⟨b, _ | ⟨c, _ | ⟨d, _ | ⟨e, t⟩⟩⟩⟩⟩ <;> simp at hy
  rcases ms with _ | ⟨m1, _ | ⟨m2, _ | ⟨m3, t⟩⟩⟩ <;> simp at hm
  rcases ds with _ | ⟨d1, _ | ⟨d2, _ | ⟨d3, t⟩⟩⟩ <;> simp at hd
  simp only [List.all_cons, List.all_nil, Bool.and_eq_true, Bool.and_true] at hya hma hda
  simp [dateShape, hya.1, hya.2.1, hya.2.2.1, hya.2.2.2, hma.1, hma.2,
    hda.1, hda.2]

/-- C7: a present before-date or after-date is emitted as
`before:`/`after:` followed by the `strftime('%Y-%m-%d')` serialization,
and for dates with four-digit years and valid months and days that
serialization has the `YYYY-MM-DD` shape. -/
theorem c7_date_tokens (r : GQInput) (d : PyDate)
    (hy1 : 1000 ≤ d.year) (hy2 : d.year ≤ 9999)
    (hm1 : 1 ≤ d.month) (hm2 : d.month ≤ 12)
    (hd1 : 1 ≤ d.day) (hd2 : d.day ≤ 31) :
    (r.before_date = some d → beforeTok r = some ("before:" ++ fmtDate d)) ∧
    (r.after_date = some d → afterTok r = some ("after:" ++ fmtDate d)) ∧
    dateShape (fmtDate d).data = true := by
  refine ⟨?_, ?_, ?_⟩
  · intro h; rw [beforeTok, h, Option.map_some']
  · intro h; rw [afterTok, h, Option.map_some']
  · show dateShape (fmtNatL d.year ++ '-' :: (pad2L d.month ++ '-' :: pad2L d.day)) = true
    have hmonth := pad2L_spec d.month hm1 (by omega)
    have hday := pad2L_spec d.day hd1 (by omega)
    refine dateShape_build _ _ _ ?_ (fmtNatL_all_digits d.year)
      hmonth.1 hmonth.2 hday.1 hday.2
    rw [fmtNatL_length d.year (by omega), log10_four_digit d.year hy1 hy2]

/-- Witness for C7 at the dates 2024-05-08 and 2010-05-08. -/
theorem c7_witness :
    beforeTok rW7 = some "before:2024-05-08" ∧
    afterTok rW7 = some "after:2010-05-08" ∧
    dateShape (fmtDate ⟨2024, 5, 8⟩).data = true := by
  have h := c7_date_tokens rW7 ⟨2024, 5, 8⟩ (by decide) (by decide) (by decide)
    (by decide) (by decide) (by decide)
  have h2 := c7_date_tokens rW7 ⟨2010, 5, 8⟩ (by decide) (by decide) (by decide)
    (by decide) (by decide) (by decide)
  refine ⟨?_, ?_, h.2.2⟩
  · rw [h.1 rfl]; rfl
  · rw [h2.2.1 rfl]; rfl

/-- Dropping the head preserves the absence of double spaces. -/
theorem hasDouble_cons (a : Char) (t : List Char)
    (h : hasDoubleSpace (a :: t) = false) : hasDoubleSpace t = false := by
  cases t with
  | nil => rfl
  | cons b t' =>
    have h' : ((a == ' ' && b == ' ') || hasDoubleSpace (b :: t')) = false := h
    exact (Bool.or_eq_false_iff.mp h').2

/-- A double-space-free concatenation has a double-space-free right part. -/
theorem hasDouble_append_left (x y : List Char)
    (h : hasDoubleSpace (x ++ y) = false) : hasDoubleSpace y = false := by
  induction x with
  | nil => exact h
  | cons a x' ih => exact ih (hasDouble_cons a (x' ++ y) h)

/-- A double-space-free concatenation has a double-space-free left part. -/
theorem hasDouble_append_right (x y : List Char)
    (h : hasDoubleSpace (x ++ y) = false) : hasDoubleSpace x = false := by
  induction x with
  | nil => rfl
  | cons a x' ih =>
    cases x' with
    | nil => rfl
    | cons b t =>
      have h' : ((a == ' ' && b == ' ') || hasDoubleSpace (b :: (t ++ y))) = false := h
      have hp := Bool.or_eq_false_iff.mp h'
      have hr := ih hp.2
      show ((a == ' ' && b == ' ') || hasDoubleSpace (b :: t)) = false
      rw [hp.1, hr, Bool.or_false]

/-- Gluing two double-space-free lists whose boundary is not a pair of
spaces keeps the result double-space free. -/
theorem hasDouble_append (x : List Char) :
    ∀ y : List Char, hasDoubleSpace x = false → hasDoubleSpace y = false →
      ¬(x.getLast? = some ' ' ∧ y.head? = some ' ') →
      hasDoubleSpace (x ++ y) = false := by
  induction x with
  | nil => intro y hx hy hb; exact hy
  | cons a x' ih =>
    intro y hx hy hb
    cases x' with
    | nil =>
      cases y with
      | nil => rfl
      | cons c t =>
        show ((a == ' ' && c == ' ') || hasDoubleSpace (c :: t)) = false
        rw [hy, Bool.or_false]
        by_cases ha : a = ' '
        · have hc : ¬(c = ' ') := by
            intro hc
            exact hb ⟨by simp [ha], by simp [hc]⟩
          simp [hc]
        · simp [ha]
    | cons b t =>
      have h' : ((a == ' ' && b == ' ') || hasDoubleSpace (b :: t)) = false := hx
      have hp := Bool.or_eq_false_iff.mp h'
      have hb' : ¬((b :: t).getLast? = some ' ' ∧ y.head? = some ' ') := by
        intro hcontra
        exact hb ⟨by rw [List.getLast?_cons_cons]; exact hcontra.1, hcontra.2⟩
      have hr := ih y hp.2 hy hb'
      show ((a == ' ' && b == ' ') || hasDoubleSpace (b :: (t ++ y))) = false
      rw [hp.1, Bool.false_or]
      exact hr

/-- Joining clean tokens with single spaces yields a double-space-free list
whose head is not a space. -/
theorem joinSpaceL_clean (ps : List (List Char))
    (h : ∀ p ∈ ps, tokenClean p = true) :
    hasDoubleSpace (joinSpaceL ps) = false ∧ (joinSpaceL ps).head? ≠ some ' ' := by
  induction ps with
  | nil => exact ⟨rfl, by simp [joinSpaceL]⟩
  | cons p ps ih =>
    have hp := h p (List.mem_cons_self p ps)
    rw [tokenClean] at hp
    simp only [Bool.and_eq_true, Bool.not_eq_true', beq_eq_false_iff_ne] at hp
    cases ps with
    | nil =>
      refine ⟨?_, ?_⟩
      · have := hp.1.1.2
        simpa using this
      · have := hp.1.2
        simpa [joinSpaceL] using this
    | cons q qs =>
      have ih' := ih (fun r hr => h r (List.mem_cons_of_mem p hr))
      have hjointail : hasDoubleSpace (' ' :: joinSpaceL (q :: qs)) = false := by
        cases hj : joinSpaceL (q :: qs) with
        | nil => rfl
        | cons c t =>
          show ((' ' == ' ' && c == ' ') || hasDoubleSpace (c :: t)) = false
          have hc : ¬(c = ' ') := by
            intro hc
            exact ih'.2 (by simp [hj, hc])
          rw [← hj, ih'.1]
          simp [hc]
      have hglue := hasDouble_append p (' ' :: joinSpaceL (q :: qs))
        hp.1.1.2 hjointail
        (by
          intro hcontra
          exact hp.2 hcontra.1)
      refine ⟨hglue, ?_⟩
      obtain ⟨c, t, hct⟩ : ∃ c t, p = c :: t := by
        cases p with
        | nil => simp at hp
        | cons c t => exact ⟨c, t, rfl⟩
      subst hct
      show (c :: (t ++ ' ' :: joinSpaceL (q :: qs))).head? ≠ some ' '
      simpa using hp.1.2

/-- Dropping trailing whitespace yields an initial segment of the list. -/
theorem dropEndSpace_isPre (l : List Char) : ∃ y, l = dropEndSpace l ++ y := by
  induction l with
  | nil => exact ⟨[], rfl⟩
  | cons c cs ih =>
    show ∃ y, c :: cs =
      (if (dropEndSpace cs).isEmpty && isPySpace c then [] else c :: dropEndSpace cs) ++ y
    split
    · exact ⟨c :: cs, rfl⟩
    · obtain ⟨y, hy⟩ := ih
      exact ⟨y, by rw [List.cons_append, ← hy]⟩

/-- After dropping trailing whitespace, the last character is not
whitespace. -/
theorem dropEndSpace_getLast (l : List Char) :
    ∀ c, (dropEndSpace l).getLast? = some c → isPySpace c = false := by
  induction l with
  | nil => intro c h; simp [dropEndSpace] at h
  | cons a cs ih =>
    intro c h
    rw [show dropEndSpace (a :: cs) =
      (if (dropEndSpace cs).isEmpty && isPySpace a then [] else a :: dropEndSpace cs)
      from rfl] at h
    split at h
    · simp at h
    · rename_i hcond
      cases hr : dropEndSpace cs with
      | nil =>
        rw [hr] at h
        have ha : isPySpace a = false := by
          rw [hr] at hcond
          simpa using hcond
        have hca : a = c := by simpa using h
        rw [← hca]
        exact ha
      | cons b t =>
        rw [hr, List.getLast?_cons_cons] at h
        exact ih c (by rw [hr]; exact h)

/-- Dropping trailing whitespace keeps the original head, when anything
remains. -/
theorem dropEndSpace_head (l : List Char) :
    (dropEndSpace l).head? = none ∨ (dropEndSpace l).head? = l.head? := by
  cases l with
  | nil => exact Or.inl rfl
  | cons a cs =>
    show ((if (dropEndSpace cs).isEmpty && isPySpace a then []
      else a :: dropEndSpace cs)).head? = none ∨
      ((if (dropEndSpace cs).isEmpty && isPySpace a then []
      else a :: dropEndSpace cs)).head? = (a :: cs).head?
    split
    · exact Or.inl rfl
    · exact Or.inr rfl

/-- After dropping leading whitespace, the head is not whitespace. -/
theorem dropWhile_head_not (l : List Char) :
    ∀ c, (l.dropWhile isPySpace).head? = some c → isPySpace c = false := by
  intro c h
  have hm := List.head?_dropWhile_not isPySpace l
  rw [h] at hm
  exact hm

/-- Stripping always removes all leading and trailing whitespace. -/
theorem pyStrip_noEdge (s : String) : noEdgeSpace (pyStrip s) = true := by
  rw [noEdgeSpace]
  have hdata : (pyStrip s).data = dropEndSpace (s.data.dropWhile isPySpace) := rfl
  rw [hdata, Bool.and_eq_true]
  refine ⟨?_, ?_⟩
  · rcases dropEndSpace_head (s.data.dropWhile isPySpace) with h | h
    · rw [h]
    · rw [h]
      cases hh : (s.data.dropWhile isPySpace).head? with
      | none => rfl
      | some c =>
        have hc := dropWhile_head_not s.data c hh
        simp [hc]
  · cases hl : (dropEndSpace (s.data.dropWhile isPySpace)).getLast? with
    | none => rfl
    | some c =>
      have hc := dropEndSpace_getLast (s.data.dropWhile isPySpace) c hl
      simp [hc]

/-- C8 (amended): the composed query never begins or ends with whitespace;
and whenever every emitted token is non-empty, free of double spaces, and
neither begins nor ends with a space, the composed query contains no two
consecutive spaces.  (Field values carrying adjacent or surrounding
whitespace can still place two consecutive spaces in the output, as the
counterexample shows.) -/
theorem c8_spacing (r : GQInput) :
    noEdgeSpace (compose_general r).1 = true ∧
    ((∀ p ∈ generatedQueryParts (validateGeneral r).1, tokenClean p.data = true) →
      hasDoubleSpace ((compose_general r).1).data = false) := by
  constructor
  · exact pyStrip_noEdge (joinSpace (generatedQueryParts (validateGeneral r).1))
  · intro h
    have hjoin := joinSpaceL_clean
      ((generatedQueryParts (validateGeneral r).1).map String.data)
      (by
        intro p hp
        rw [List.mem_map] at hp
        obtain ⟨q, hq, hqp⟩ := hp
        rw [← hqp]
        exact h q hq)
    have hdata : ((compose_general r).1).data =
        dropEndSpace
          ((joinSpaceL ((generatedQueryParts (validateGeneral r).1).map
            String.data)).dropWhile isPySpace) := rfl
    rw [hdata]
    set J := joinSpaceL ((generatedQueryParts (validateGeneral r).1).map String.data)
      with hJdef
    have h1 : hasDoubleSpace (J.dropWhile isPySpace) = false := by
      refine hasDouble_append_left (J.takeWhile isPySpace) (J.dropWhile isPySpace) ?_
      rw [List.takeWhile_append_dropWhile]
      exact hjoin.1
    obtain ⟨y, hy⟩ := dropEndSpace_isPre (J.dropWhile isPySpace)
    exact hasDouble_append_right (dropEndSpace (J.dropWhile isPySpace)) y
      (by rw [← hy]; exact h1)

/-- Counterexample to C8 as stated: keywords containing an internal double
space pass straight through join and strip into the composed query. -/
theorem c8_counterexample :
    (compose_general rC8).1 = "hello  world" ∧
    hasDoubleSpace ((compose_general rC8).1).data = true :=
  ⟨by rfl, by decide⟩

/-- Witness for C8 (amended) at a record with clean tokens. -/
theorem c8_witness :
    hasDoubleSpace ((compose_general rW8).1).data = false ∧
    noEdgeSpace (compose_general rW8).1 = true := by
  have h := c8_spacing rW8
  exact ⟨h.2 (by decide), h.1⟩

/-- Hex encoding and decoding of one digit value are inverse. -/
theorem hexVal_hexDigitCode (n : Nat) (h : n < 16) :
    hexVal (hexDigitCode n) = some n := by
  interval_cases n <;> rfl

/-- Unfolding of the percent decoder at a cons cell. -/
theorem percentDecodeBytes_cons (b : Nat) (rest : List Nat) :
    percentDecodeBytes (b :: rest) =
      (if b == 43 then (percentDecodeBytes rest).map (fun t => 32 :: t)
      else if b == 37 then
        match rest with
        | h1 :: h2 :: rest2 =>
          match hexVal h1, hexVal h2 with
          | some v1, some v2 =>
            (percentDecodeBytes rest2).map (fun t => (16 * v1 + v2) :: t)
          | _, _ => none
        | _ => none
      else (percentDecodeBytes rest).map (fun t => b :: t)) := by
  rw [percentDecodeBytes.eq_def]

/-- Percent-decoding undoes the quote_plus encoding of one byte. -/
theorem percentDecode_encodeByte (b : Nat) (hb : b < 256) (l : List Nat) :
    percentDecodeBytes (quotePlusByte b ++ l) =
      (percentDecodeBytes l).map (fun t => b :: t) := by
  rw [quotePlusByte]
  by_cases hun : isUnreservedByte b = true
  · rw [if_pos hun]
    have hprop : b ≠ 43 ∧ b ≠ 37 := by
      simp only [isUnreservedByte, Bool.or_eq_true, Bool.and_eq_true,
        beq_iff_eq, decide_eq_true_eq] at hun
      omega
    show percentDecodeBytes (b :: l) = _
    rw [percentDecodeBytes_cons,
      if_neg (by simp only [beq_iff_eq]; exact hprop.1),
      if_neg (by simp only [beq_iff_eq]; exact hprop.2)]
  · rw [if_neg hun]
    by_cases h32 : b = 32
    · subst h32
      rw [if_pos (by rfl)]
      show percentDecodeBytes (43 :: l) = _
      rw [percentDecodeBytes_cons, if_pos (by rfl)]
    · rw [if_neg (by simp only [beq_iff_eq]; exact h32)]
      show percentDecodeBytes
        (37 :: hexDigitCode (b / 16) :: hexDigitCode (b % 16) :: l) = _
      rw [percentDecodeBytes_cons, if_neg (by decide), if_pos (by rfl)]
      show (match hexVal (hexDigitCode (b / 16)), hexVal (hexDigitCode (b % 16)) with
        | some v1, some v2 => (percentDecodeBytes l).map (fun t => (16 * v1 + v2) :: t)
        | _, _ => none) = _
      rw [hexVal_hexDigitCode (b / 16) (by omega),
        hexVal_hexDigitCode (b % 16) (by omega)]
      show (percentDecodeBytes l).map (fun t => (16 * (b / 16) + b % 16) :: t) = _
      have hv : 16 * (b / 16) + b % 16 = b := by omega
      rw [hv]

/-- Percent-decoding undoes quote_plus on any byte sequence. -/
theorem percentDecode_quotePlus (bs : List Nat) (h : ∀ b ∈ bs, b < 256) :
    percentDecodeBytes (quotePlusBytes bs) = some bs := by
  induction bs with
  | nil => rfl
  | cons b rest ih =>
    have ih' := ih (fun x hx => h x (List.mem_cons_of_mem b hx))
    rw [quotePlusBytes, List.flatMap_cons]
    rw [percentDecode_encodeByte b (h b (List.mem_cons_self b rest))
      (rest.flatMap quotePlusByte)]
    rw [show rest.flatMap quotePlusByte = quotePlusBytes rest from rfl, ih']
    rfl

/-- UTF-8 decoding undoes the encoding of one code point at the head of a
byte sequence. -/
theorem utf8Decode_encode_cons (c : Nat) (hc : c < 1114112) (l : List Nat) :
    utf8DecodeCp (utf8EncodeCp c ++ l) = (utf8DecodeCp l).map (fun t => c :: t) := by
  rw [utf8EncodeCp]
  by_cases h1 : c < 128
  · rw [if_pos h1]
    show utf8DecodeCp (c :: l) = _
    rw [utf8DecodeCp, if_pos h1]
  · rw [if_neg h1]
    by_cases h2 : c < 2048
    · rw [if_pos h2]
      show utf8DecodeCp ((192 + c / 64) :: (128 + c % 64) :: l) = _
      rw [utf8DecodeCp, if_neg (by omega), if_neg (by omega), if_pos (by omega)]
      rw [utf8DecodeTwo, if_pos (show isContByte (128 + c % 64) = true by
        simp only [isContByte, Bool.and_eq_true, decide_eq_true_eq]
        omega)]
      have hv : (192 + c / 64 - 192) * 64 + (128 + c % 64 - 128) = c := by omega
      rw [hv]
    · rw [if_neg h2]
      by_cases h3 : c < 65536
      · rw [if_pos h3]
        show utf8DecodeCp
          ((224 + c / 4096) :: (128 + (c / 64) % 64) :: (128 + c % 64) :: l) = _
        rw [utf8DecodeCp, if_neg (by omega), if_neg (by omega),
          if_neg (by omega), if_pos (by omega)]
        rw [utf8DecodeThree, if_pos (show (isContByte (128 + (c / 64) % 64) &&
            isContByte (128 + c % 64)) = true by
          simp only [isContByte, Bool.and_eq_true, decide_eq_true_eq]
          omega)]
        have hv : (224 + c / 4096 - 224) * 4096 +
            (128 + (c / 64) % 64 - 128) * 64 + (128 + c % 64 - 128) = c := by omega
        rw [hv]
      · rw [if_neg h3]
        show utf8DecodeCp ((240 + c / 262144) :: (128 + (c / 4096) % 64) ::
          (128 + (c / 64) % 64) :: (128 + c % 64) :: l) = _
        rw [utf8DecodeCp, if_neg (by omega), if_neg (by omega),
          if_neg (by omega), if_neg (by omega), if_pos (by omega)]
        rw [utf8DecodeFour, if_pos (show (isContByte (128 + (c / 4096) % 64) &&
            isContByte (128 + (c / 64) % 64) && isContByte (128 + c % 64)) = true by
          simp only [isContByte, Bool.and_eq_true, decide_eq_true_eq]
          omega)]
        have hv : (240 + c / 262144 - 240) * 262144 +
            (128 + (c / 4096) % 64 - 128) * 4096 +
            (128 + (c / 64) % 64 - 128) * 64 + (128 + c % 64 - 128) = c := by omega
        rw [hv]

/-- UTF-8 decoding undoes the encoding of any code-point sequence. -/
theorem utf8Decode_encode (cs : List Nat) (h : ∀ c ∈ cs, c < 1114112) :
    utf8DecodeCp (cs.flatMap utf8EncodeCp) = some cs := by
  induction cs with
  | nil => rfl
  | cons c rest ih =>
    rw [List.flatMap_cons]
    rw [utf8Decode_encode_cons c (h c (List.mem_cons_self c rest))
      (rest.flatMap utf8EncodeCp)]
    rw [ih (fun x hx => h x (List.mem_cons_of_mem c hx))]
    rfl

/-- UTF-8 bytes of a valid code point are below 256. -/
theorem utf8EncodeCp_lt (c : Nat) (hc : c < 1114112) :
    ∀ b ∈ utf8EncodeCp c, b < 256 := by
  intro b hb
  rw [utf8EncodeCp] at hb
  split at hb
  · simp at hb; omega
  · split at hb
    · simp at hb; rcases hb with hb | hb <;> omega
    · split at hb
      · simp at hb; rcases hb with hb | hb | hb <;> omega
      · simp at hb; rcases hb with hb | hb | hb | hb <;> omega

/-- Every code of an encoded quote_plus output is printable ASCII. -/
theorem quotePlusBytes_lt (bs : List Nat) (h : ∀ b ∈ bs, b < 256) :
    ∀ x ∈ quotePlusBytes bs, x < 128 := by
  intro x hx
  rw [quotePlusBytes, List.mem_flatMap] at hx
  obtain ⟨b, hb, hxb⟩ := hx
  have hb256 := h b hb
  rw [quotePlusByte] at hxb
  split at hxb
  · rename_i hun
    simp at hxb
    simp only [isUnreservedByte, Bool.or_eq_true, Bool.and_eq_true, beq_iff_eq,
      decide_eq_true_eq] at hun
    omega
  · split at hxb
    · simp at hxb; omega
    · have h16a : hexDigitCode (b / 16) < 128 := by
        rw [hexDigitCode]; split <;> omega
      have h16b : hexDigitCode (b % 16) < 128 := by
        rw [hexDigitCode]; split <;> omega
      simp at hxb
      rcases hxb with hxb | hxb | hxb <;> omega

/-- Every character's code point is below the Unicode bound. -/
theorem char_toNat_lt (ch : Char) : ch.toNat < 1114112 := by
  have h : ch.val.toNat < 55296 ∨ 57344 ≤ ch.val.toNat ∧ ch.val.toNat < 1114112 :=
    ch.valid
  rcases h with h | h
  · exact Nat.lt_trans h (by norm_num)
  · exact h.2

/-- The UTF-8 bytes of a string are below 256. -/
theorem utf8Bytes_lt (s : String) : ∀ b ∈ utf8Bytes s, b < 256 := by
  intro b hb
  rw [utf8Bytes, List.mem_flatMap] at hb
  obtain ⟨ch, hch, hbch⟩ := hb
  exact utf8EncodeCp_lt ch.toNat (char_toNat_lt ch) b hbch

/-- Converting a small code to a character and back is the identity. -/
theorem toNat_ofNat_lt (n : Nat) (h : n < 55296) : (Char.ofNat n).toNat = n := by
  rw [Char.ofNat]
  rw [dif_pos (Or.inl h : Nat.isValidChar n)]
  rfl

/-- Reading codes from the rendered ASCII characters recovers them. -/
theorem map_toNat_ofNat (l : List Nat) (h : ∀ b ∈ l, b < 128) :
    (l.map Char.ofNat).map Char.toNat = l := by
  induction l with
  | nil => rfl
  | cons b rest ih =>
    simp only [List.map_cons]
    rw [toNat_ofNat_lt b (by have := h b (List.mem_cons_self b rest); omega)]
    rw [ih (fun x hx => h x (List.mem_cons_of_mem b hx))]

/-- Mapping to code points before encoding agrees with encoding each
character's code point. -/
theorem flatMap_map_toNat (l : List Char) :
    (l.map Char.toNat).flatMap utf8EncodeCp =
      l.flatMap (fun ch => utf8EncodeCp ch.toNat) := by
  induction l with
  | nil => rfl
  | cons a t ih => simp only [List.map_cons, List.flatMap_cons, ih]

/-- C9: the LinkOpener builds `https://www.google.com/search?q=` followed
by the quote_plus form-encoding of the composed query (space to `+`,
non-safe bytes percent-escaped), and standard percent-decoding of the
encoded query recovers exactly the query's UTF-8 bytes, which decode to
exactly the query's code points. -/
theorem c9_url_roundtrip (q : String) :
    google_search_url q = "https://www.google.com/search?q=" ++ quotePlusStr q ∧
    (quotePlusStr q).data.map Char.toNat = quotePlusBytes (utf8Bytes q) ∧
    percentDecodeBytes (quotePlusBytes (utf8Bytes q)) = some (utf8Bytes q) ∧
    utf8DecodeCp (utf8Bytes q) = some (q.data.map Char.toNat) := by
  refine ⟨rfl, ?_, ?_, ?_⟩
  · show ((quotePlusBytes (utf8Bytes q)).map Char.ofNat).map Char.toNat = _
    exact map_toNat_ofNat _ (quotePlusBytes_lt _ (utf8Bytes_lt q))
  · exact percentDecode_quotePlus _ (utf8Bytes_lt q)
  · rw [utf8Bytes, ← flatMap_map_toNat]
    refine utf8Decode_encode _ ?_
    intro c hc
    rw [List.mem_map] at hc
    obtain ⟨ch, hch, hchc⟩ := hc
    rw [← hchc]
    exact char_toNat_lt ch
